import Mathlib

/-!
Verification of the job-queue core of `ollama_vision/web_app.py`.

The development shallowly embeds the admission-control / scheduling /
progress-tracking subsystem: the job store (`jobs` ordered dict), the
admission counter (`active_jobs_count`), the per-job worker pipeline
(`process_job`), the admission scan (`start_next_job`) and the submission
endpoint (`generate`).  Machine state is modelled as explicit records, the
concurrency is modelled as an interleaving of the lock-protected atomic
sections of the Python code: each `Act` below corresponds to one such
section, and a system run is a fold of the step function over a list of
acts.  External collaborators (the Ollama enhancement call and the
diffusion pipeline) are modelled as oracle results carried by the acts.
-/

namespace OllamaVision

/-- Job status, the `'status'` field of a job dict:
`queued`, `processing`, `completed` or `error`. -/
inductive Status where
  | queued
  | processing
  | completed
  | error
deriving DecidableEq, Repr

/-- Settings stored on a job (`job_settings` in `create_job`): guidance scale
is a Python float (modelled as `ℚ`) and inference steps a Python int. -/
structure JobSettings where
  guidance_scale : ℚ
  inference_steps : ℤ
deriving DecidableEq, Repr

/-- Caller-supplied settings dict: each key may be absent. -/
structure InputSettings where
  guidance_scale : Option ℚ
  inference_steps : Option ℤ
deriving DecidableEq, Repr

/-- Process-wide configuration derived from `config.py`:
`REALVISXL_CONFIG.get('guidance_scale', 6.0)`,
`REALVISXL_CONFIG.get('inference_steps', 45)`, `RANDOM_SEED`, and
`CHARACTER_CONSISTENCY_CONFIG.get('fixed_seed', 42)`. -/
structure Config where
  default_guidance : ℚ
  default_steps : ℤ
  random_seed : ℤ
  fixed_seed : ℤ
deriving DecidableEq, Repr

/-- The character reference stored on a job by the `generate` endpoint
(`jobs[job_id]['character'] = {'id': ..., 'name': ..., 'seed': ...}`). -/
structure CharacterInfo where
  char_id : ℕ
  name : String
  seed : ℤ
deriving DecidableEq, Repr

/-- A job record, the value of the `jobs` ordered dict in `web_app.py`.
Job ids (`uuid` strings in the source) are modelled as naturals issued by a
counter.  `used_seed` models the seed recorded in the metadata sidecar file
written on success. -/
structure JobInfo where
  id : ℕ
  prompt : String
  optimize_prompt : Bool
  character_consistency : Bool
  settings : JobSettings
  status : Status
  step : ℤ
  total : ℤ
  stage : String
  queue_position : ℕ
  filename : Option String
  optimized_prompt : Option String
  error : Option String
  character : Option CharacterInfo
  used_seed : Option ℤ
deriving DecidableEq, Repr

/-- `MAX_CONCURRENT_JOBS = 5` in `web_app.py`. -/
def MAX_CONCURRENT_JOBS : ℕ := 5

/-- The hard-coded retention bound in `create_job` (`keep last 20`). -/
def RETENTION_LIMIT : ℕ := 20

/-- Whether a status is terminal (`'completed'` or `'error'`). -/
def isTerminal (st : Status) : Bool :=
  match st with
  | .completed => true
  | .error => true
  | _ => false

/-- Whether a status counts as pending in `create_job`
(`j['status'] in ['queued', 'processing']`). -/
def isPending (st : Status) : Bool :=
  match st with
  | .queued => true
  | .processing => true
  | _ => false

/-- Clamp of `guidance_scale` in `create_job`:
`max(1.0, min(20.0, float(settings['guidance_scale'])))`. -/
def clamp_guidance (g : ℚ) : ℚ := max 1 (min 20 g)

/-- Clamp of `inference_steps` in `create_job`:
`max(10, min(150, int(settings['inference_steps'])))`. -/
def clamp_steps (n : ℤ) : ℤ := max 10 (min 150 n)

/-- The settings merge performed at the top of `create_job`: defaults from
the process configuration, each provided key clamped into its range. -/
def merge_settings (cfg : Config) (settings : Option InputSettings) : JobSettings :=
  match settings with
  | none => { guidance_scale := cfg.default_guidance, inference_steps := cfg.default_steps }
  | some s =>
    { guidance_scale :=
        match s.guidance_scale with
        | some g => clamp_guidance g
        | none => cfg.default_guidance
      inference_steps :=
        match s.inference_steps with
        | some n => clamp_steps n
        | none => cfg.default_steps }

/-- Seed derivation in `process_job` (lines 201-212): a bound character's
saved seed wins; otherwise the fixed consistency seed; otherwise
`RANDOM_SEED + hash(job_id) % 10000`.  The Python `hash` is modelled as an
arbitrary integer-valued function fixed for the process. -/
def derive_seed (cfg : Config) (hashFn : ℕ → ℤ)
    (character : Option CharacterInfo) (character_consistency : Bool)
    (job_id : ℕ) : ℤ :=
  match character with
  | some c => c.seed
  | none =>
    if character_consistency then cfg.fixed_seed
    else cfg.random_seed + hashFn job_id % 10000

/-- Seed used by the pipeline for a given job record. -/
def job_seed (cfg : Config) (hashFn : ℕ → ℤ) (j : JobInfo) : ℤ :=
  derive_seed cfg hashFn j.character j.character_consistency j.id

/-- A concrete configuration holding the source-code defaults. -/
def defaultCfg : Config :=
  { default_guidance := 6, default_steps := 45, random_seed := 42, fixed_seed := 42 }

/-- The Ollama enhancement call as seen by the pipeline: either a response
string or a raised exception with a message. -/
inductive EnhanceResult where
  | ok (response : String)
  | exn (msg : String)
deriving DecidableEq, Repr

/-- The diffusion-pipeline invocation plus artifact persistence as seen by
the pipeline: either success producing a filename, or a raised exception. -/
inductive ProduceResult where
  | ok (filename : String)
  | exn (msg : String)
deriving DecidableEq, Repr

/-- Python `str.strip()` with no argument: drop leading and trailing
whitespace.  (Defined over the character list so it evaluates by kernel
reduction; the core `String.trim` is defined by well-founded recursion.) -/
def py_strip (s : String) : String :=
  String.mk (((s.data.dropWhile Char.isWhitespace).reverse.dropWhile Char.isWhitespace).reverse)

/-- Split a character list at every character satisfying `p`, keeping empty
segments, as Python `str.split(sep)` does for a one-character separator. -/
def split_pred_go (p : Char → Bool) : List Char → List Char → List (List Char)
  | [], acc => [acc.reverse]
  | x :: xs, acc =>
    if p x then acc.reverse :: split_pred_go p xs []
    else split_pred_go p xs (x :: acc)

/-- Python `s.split('\n')`. -/
def py_split_newline (s : String) : List String :=
  (split_pred_go (fun c => c == '\n') s.data []).map String.mk

/-- Python `str.split()` with no argument: split on whitespace runs,
dropping empty pieces. -/
def py_words (s : String) : List String :=
  ((split_pred_go Char.isWhitespace s.data []).map String.mk).filter (fun w => w ≠ "")

/-- Python `' '.join(ws)`. -/
def space_join : List String → String
  | [] => ""
  | [w] => w
  | w :: ws => w ++ " " ++ space_join ws

/-- Whether a string starts with the given character. -/
def starts_with_char (s : String) (c : Char) : Bool :=
  match s.data with
  | x :: _ => x == c
  | [] => false

/-- Line filter applied to the Ollama response in `process_job`: the
response is split on newlines, each line stripped, and a line is kept when
it is non-empty, does not start with `-` or `*`, and does not look like a
numbered bullet (leading digit followed by `. ` or `) `). -/
def valid_line (s : String) : Bool :=
  s ≠ "" && !(starts_with_char s '-') && !(starts_with_char s '*') &&
    !((match s.data with | c :: _ => c.isDigit | [] => false) &&
      (String.mk ((s.data.drop 1).take 2) == ". " ||
       String.mk ((s.data.drop 1).take 2) == ") "))

/-- The stripped, filtered lines of an Ollama response
(`lines = [...]` in `process_job`). -/
def extract_lines (txt : String) : List String :=
  ((py_split_newline txt).map py_strip).filter valid_line

/-- The deterministic fallback prompt synthesized in `process_job` when the
enhancement response has fewer than two usable lines. -/
def fallback_prompt (user_prompt : String) : String :=
  user_prompt ++
    ", professional portrait, high quality, detailed\nstudio lighting, RAW photo, shot on Canon EOS R5, 85mm f/1.8, bokeh, film grain"

/-- Validation of a successfully returned enhancement response
(`process_job` lines 151-164): if fewer than two lines survive the filter,
use the fallback, otherwise keep exactly the first two surviving lines. -/
def optimize_result (user_prompt : String) (response : String) : String :=
  match extract_lines (py_strip response) with
  | a :: b :: _ => a ++ "\n" ++ b
  | _ => fallback_prompt user_prompt

/-- Word-count truncation in `process_job` (`truncate`, cap 55 words):
Python `str.split()` splits on whitespace runs and drops empty pieces. -/
def truncate (p : String) : String :=
  let words := py_words p
  if words.length > 55 then space_join (words.take 55) else p

/-- Terminal data produced by a successful pipeline run. -/
structure SuccessData where
  optimized_prompt : String
  main_prompt : String
  secondary_prompt : String
  seed : ℤ
  filename : String
deriving DecidableEq, Repr

/-- Result of one pipeline run: success, or failure with the exception
message; on failure the optimized prompt is carried when the run got past
the enhancement stage (the code wrote it to the record at that point). -/
inductive Outcome where
  | success (data : SuccessData)
  | failure (optimized : Option String) (msg : String)
deriving DecidableEq, Repr

/-- The body of `process_job` after the record is marked `processing`
(lines 140-287), as a pure function of the job record and the two oracle
results.  An exception at any stage (modelled by the `exn` oracle values)
falls to the `except` handler, i.e. yields `Outcome.failure`. -/
def process_job_run (cfg : Config) (hashFn : ℕ → ℤ) (j : JobInfo)
    (enh : EnhanceResult) (prod : ProduceResult) : Outcome :=
  let enhanced : Except String String :=
    if j.optimize_prompt then
      match enh with
      | .exn m => .error m
      | .ok resp => .ok (optimize_result j.prompt resp)
    else .ok j.prompt
  match enhanced with
  | .error m => .failure none m
  | .ok optimized =>
    let ls := py_split_newline optimized
    let main_prompt := truncate (py_strip (ls.headD optimized))
    let secondary_prompt := truncate (match ls with | _ :: s :: _ => py_strip s | _ => "")
    let seed := job_seed cfg hashFn j
    match prod with
    | .exn m => .failure (some optimized) m
    | .ok fname =>
      .success
        { optimized_prompt := optimized, main_prompt := main_prompt,
          secondary_prompt := secondary_prompt, seed := seed, filename := fname }

/-- Program counter of a worker thread spawned by `start_next_job`.  The
positions are the boundaries of the `jobs_lock` sections of `process_job`:
`atStart` = about to run the initial `get_job_info` lookup; `atMark` = about
to mark the record `processing` and recompute queue positions; `atWork` =
running the enhancement / generation / persistence body; `atCleanup` =
about to run the `finally` block (release the slot). -/
inductive PC where
  | atStart
  | atMark
  | atWork
  | atCleanup
deriving DecidableEq, Repr

/-- A worker thread: its identity, the job id it was dispatched for, and
its program counter. -/
structure ThreadState where
  tid : ℕ
  jid : ℕ
  pc : PC
deriving DecidableEq, Repr

/-- The shared state of the subsystem: the ordered job store, the admission
counter, the live worker threads, and the id counters. -/
structure SysState where
  jobs : List JobInfo
  active_jobs_count : ℤ
  threads : List ThreadState
  next_job_id : ℕ
  next_thread_id : ℕ
deriving DecidableEq, Repr

/-- The empty initial state of the process. -/
def initState : SysState :=
  { jobs := [], active_jobs_count := 0, threads := [], next_job_id := 0,
    next_thread_id := 0 }

/-- Lookup of a record by id (`jobs.get(job_id)`). -/
def job_lookup (l : List JobInfo) (i : ℕ) : Option JobInfo :=
  l.find? (fun j => j.id == i)

/-- In-place update of the record with the given id, a no-op when absent. -/
def jobs_update (l : List JobInfo) (i : ℕ) (f : JobInfo → JobInfo) : List JobInfo :=
  l.map (fun j => if j.id == i then f j else j)

/-- Number of records currently `processing`. -/
def processing_count (l : List JobInfo) : ℕ :=
  (l.filter (fun j => j.status == Status.processing)).length

/-- Number of records currently in a terminal state. -/
def terminal_count (l : List JobInfo) : ℕ :=
  (l.filter (fun j => isTerminal j.status)).length

/-- Number of records currently `queued`. -/
def queued_count (l : List JobInfo) : ℕ :=
  (l.filter (fun j => j.status == Status.queued)).length

/-- Number of records counted as pending by `create_job`
(`status in ['queued', 'processing']`). -/
def pending_count (l : List JobInfo) : ℕ :=
  (l.filter (fun j => isPending j.status)).length

/-- The retention sweep at the end of `create_job`: collect the ids of
terminal records in insertion order and, when there are more than
`RETENTION_LIMIT` of them, delete all but the newest `RETENTION_LIMIT`. -/
def retention_sweep (l : List JobInfo) : List JobInfo :=
  let completed := (l.filter (fun j => isTerminal j.status)).map (fun j => j.id)
  if completed.length > RETENTION_LIMIT then
    let evict := completed.take (completed.length - RETENTION_LIMIT)
    l.filter (fun j => !(evict.contains j.id))
  else l

/-- `create_job`: merge settings, compute the initial queue position as the
pending count, insert the fresh `queued` record, then run the retention
sweep.  Returns the new state and the fresh job id. -/
def create_job (cfg : Config) (s : SysState) (prompt : String)
    (optimize_prompt character_consistency : Bool)
    (settings : Option InputSettings) : SysState × ℕ :=
  let js := merge_settings cfg settings
  let job : JobInfo :=
    { id := s.next_job_id, prompt := prompt, optimize_prompt := optimize_prompt,
      character_consistency := character_consistency, settings := js,
      status := .queued, step := 0, total := js.inference_steps,
      stage := "Waiting in queue", queue_position := pending_count s.jobs,
      filename := none, optimized_prompt := none, error := none,
      character := none, used_seed := none }
  ({ s with jobs := retention_sweep (s.jobs ++ [job]),
            next_job_id := s.next_job_id + 1 }, s.next_job_id)

/-- The queue-position recompute loop in `process_job` (lines 133-138):
walk the store in insertion order and assign `0, 1, 2, ...` to the records
still `queued`. -/
def update_queue_positions_from (pos : ℕ) : List JobInfo → List JobInfo
  | [] => []
  | j :: rest =>
    if j.status == Status.queued then
      { j with queue_position := pos } :: update_queue_positions_from (pos + 1) rest
    else j :: update_queue_positions_from pos rest

/-- Queue-position recompute starting from rank `0`. -/
def update_queue_positions (l : List JobInfo) : List JobInfo :=
  update_queue_positions_from 0 l

/-- `start_next_job`: when the admission counter is below the ceiling, scan
the store in insertion order for the first `queued` record, reserve a slot
and dispatch a new worker thread for it.  The dispatched thread starts at
`PC.atStart`; marking the record `processing` happens later, inside the
thread (`process_job`), which is why the scan can pick the same record
twice. -/
def start_next_job (s : SysState) : SysState :=
  if s.active_jobs_count ≥ (MAX_CONCURRENT_JOBS : ℤ) then s
  else
    match s.jobs.find? (fun j => j.status == Status.queued) with
    | none => s
    | some j =>
      { s with active_jobs_count := s.active_jobs_count + 1,
               threads := s.threads ++ [{ tid := s.next_thread_id, jid := j.id, pc := .atStart }],
               next_thread_id := s.next_thread_id + 1 }

/-- A request body of the `/generate` endpoint. -/
structure RequestData where
  prompt : String
  optimize_prompt : Bool
  character_consistency : Bool
  character_id : Option ℕ
  guidance_scale : Option ℚ
  inference_steps : Option ℤ
deriving DecidableEq, Repr

/-- A saved character profile as returned by the profile store
(`character_manager.get_character`). -/
structure Character where
  name : String
  description : String
  seed : ℤ
  settings_guidance : Option ℚ
  settings_num_steps : Option ℤ
deriving DecidableEq, Repr

/-- Result of the `/generate` endpoint as far as the store is concerned. -/
inductive SubmitResult where
  | rejected
  | accepted (job_id : ℕ)
deriving DecidableEq, Repr

/-- The submission section of the `/generate` endpoint up to and including
`create_job`: strip the prompt, resolve the optional character (combining
its description with the scene text and forcing consistency on), apply the
character's saved settings over the caller's, reject when the resulting
prompt text is empty, otherwise create the record.  Attaching the
character reference to the record and the subsequent `start_next_job` call
are separate lock sections, modelled as separate acts. -/
def generate_submit (cfg : Config) (store : ℕ → Option Character)
    (s : SysState) (d : RequestData) : SysState × SubmitResult :=
  let trimmed := py_strip d.prompt
  let chr := d.character_id.bind store
  let user_prompt :=
    match chr with
    | some c => c.description ++ ", " ++ trimmed
    | none => trimmed
  let consistency := if chr.isSome then true else d.character_consistency
  let gs := (chr.bind (fun c => c.settings_guidance)).orElse (fun _ => d.guidance_scale)
  let st := (chr.bind (fun c => c.settings_num_steps)).orElse (fun _ => d.inference_steps)
  let settings : Option InputSettings :=
    if gs.isNone && st.isNone then none
    else some { guidance_scale := gs, inference_steps := st }
  if user_prompt == "" then (s, .rejected)
  else
    let r := create_job cfg s user_prompt d.optimize_prompt consistency settings
    (r.1, .accepted r.2)

/-- Terminal write of `process_job`: on success the `completed` fields
(lines 280-284), on failure the `error` fields (lines 291-294). -/
def apply_outcome (o : Outcome) (j : JobInfo) : JobInfo :=
  match o with
  | .success data =>
    { j with status := .completed, stage := "Complete",
             filename := some data.filename, step := j.total,
             optimized_prompt := some data.optimized_prompt,
             used_seed := some data.seed }
  | .failure optw m =>
    { j with status := .error, stage := "Error", error := some m,
             optimized_prompt := match optw with | some p => some p | none => j.optimized_prompt }

/-- One atomic (lock-protected) section of the system.  `submit`, `attach`
and `startNext` are the three sections of one `/generate` request, in that
order; `threadGet` through `threadRelease` are the sections of the worker
thread dispatched by `start_next_job`, in that order.  Distinct requests
and threads interleave arbitrarily. -/
inductive Act where
  | submit (d : RequestData)
  | attach (jid : ℕ) (c : CharacterInfo)
  | startNext
  | threadGet (tid : ℕ)
  | threadMark (tid : ℕ)
  | threadFinish (tid : ℕ) (enh : EnhanceResult) (prod : ProduceResult)
  | threadRelease (tid : ℕ)

/-- Find a live thread by id. -/
def find_thread (s : SysState) (tid : ℕ) : Option ThreadState :=
  s.threads.find? (fun t => t.tid == tid)

/-- Remove a thread from the live set. -/
def remove_thread (s : SysState) (tid : ℕ) : List ThreadState :=
  s.threads.filter (fun t => !(t.tid == tid))

/-- Move a live thread to a new program counter. -/
def set_thread_pc (s : SysState) (tid : ℕ) (pc : PC) : List ThreadState :=
  s.threads.map (fun t => if t.tid == tid then { t with pc := pc } else t)

/-- One interleaving step.  Each case is the corresponding lock-protected
section of `web_app.py`:

* `submit` — prompt validation plus `create_job`;
* `attach` — `jobs[job_id]['character'] = {...}` in `/generate`;
* `startNext` — the `start_next_job` call of `/generate`;
* `threadGet` — the `get_job_info` lookup at the top of `process_job`: if
  the record is gone the thread returns before the `try`, leaking its slot
  (the `finally` decrement is skipped);
* `threadMark` — mark `processing` and recompute queue positions; if the
  record is gone the body raises `KeyError` and falls to the cleanup path;
* `threadFinish` — the enhancement / generation / persistence body with the
  given oracle results, ending in the terminal write;
* `threadRelease` — the `finally` block: decrement the counter, then call
  `start_next_job`. -/
def step (cfg : Config) (store : ℕ → Option Character) (hashFn : ℕ → ℤ)
    (s : SysState) (a : Act) : SysState :=
  match a with
  | .submit d => (generate_submit cfg store s d).1
  | .attach jid c =>
    { s with jobs := jobs_update s.jobs jid (fun j => { j with character := some c }) }
  | .startNext => start_next_job s
  | .threadGet tid =>
    match find_thread s tid with
    | some t =>
      if t.pc == PC.atStart then
        match job_lookup s.jobs t.jid with
        | some _ => { s with threads := set_thread_pc s tid .atMark }
        | none => { s with threads := remove_thread s tid }
      else s
    | none => s
  | .threadMark tid =>
    match find_thread s tid with
    | some t =>
      if t.pc == PC.atMark then
        match job_lookup s.jobs t.jid with
        | some _ =>
          { s with
            jobs := update_queue_positions
              (jobs_update s.jobs t.jid
                (fun j => { j with status := .processing, stage := "Optimizing prompt" })),
            threads := set_thread_pc s tid .atWork }
        | none => { s with threads := set_thread_pc s tid .atCleanup }
      else s
    | none => s
  | .threadFinish tid enh prod =>
    match find_thread s tid with
    | some t =>
      if t.pc == PC.atWork then
        match job_lookup s.jobs t.jid with
        | some j =>
          { s with
            jobs := jobs_update s.jobs t.jid
              (apply_outcome (process_job_run cfg hashFn j enh prod)),
            threads := set_thread_pc s tid .atCleanup }
        | none => { s with threads := set_thread_pc s tid .atCleanup }
      else s
    | none => s
  | .threadRelease tid =>
    match find_thread s tid with
    | some t =>
      if t.pc == PC.atCleanup then
        start_next_job
          { s with active_jobs_count := s.active_jobs_count - 1,
                   threads := remove_thread s tid }
      else s
    | none => s

/-- A run of the system: fold the step function over an interleaving. -/
def run (cfg : Config) (store : ℕ → Option Character) (hashFn : ℕ → ℤ)
    (s : SysState) (acts : List Act) : SysState :=
  acts.foldl (step cfg store hashFn) s

/-- An empty profile store. -/
def emptyStore : ℕ → Option Character := fun _ => none

/-- A hash function used in concrete runs. -/
def hash0 : ℕ → ℤ := fun _ => 0

/-- A plain request: non-empty prompt, no enhancement, no character. -/
def req_plain : RequestData :=
  { prompt := "x", optimize_prompt := false, character_consistency := false,
    character_id := none, guidance_scale := none, inference_steps := none }

/-- A request asking for prompt enhancement. -/
def req_optimize : RequestData :=
  { prompt := "x", optimize_prompt := true, character_consistency := false,
    character_id := none, guidance_scale := none, inference_steps := none }

/-- A profile store holding one character with fixed seed `777`. -/
def oneCharStore : ℕ → Option Character := fun i =>
  if i == 0 then
    some { name := "n", description := "girl", seed := 777,
           settings_guidance := none, settings_num_steps := none }
  else none

/-- A request bound to character `0`. -/
def req_character : RequestData :=
  { prompt := "a", optimize_prompt := false, character_consistency := false,
    character_id := some 0, guidance_scale := none, inference_steps := none }

/-- A request with a whitespace-only prompt bound to character `0`. -/
def req_blank_character : RequestData :=
  { prompt := "   ", optimize_prompt := false, character_consistency := false,
    character_id := some 0, guidance_scale := none, inference_steps := none }

/-- Interleaving: one submission with enhancement on; its worker is
dispatched, marks the job, and the Ollama call raises `"boom"`. -/
def trace_enhance_exn : List Act :=
  [.submit req_optimize, .startNext, .threadGet 0, .threadMark 0,
   .threadFinish 0 (.exn "boom") (.ok "f.png")]

/-- Interleaving: six submissions; after each of the first five, the
dispatched worker marks its job `processing` before the next request
arrives; the sixth finds the admission ceiling reached and stays queued. -/
def trace_six_submissions : List Act :=
  ((List.range 5).flatMap
    (fun i => [.submit req_plain, .startNext, .threadGet i, .threadMark i])) ++
  [.submit req_plain, .startNext]

/-- Interleaving producing 21 terminal records: 21 submissions (the first
five start processing immediately, the rest queue up), then the workers
drain the queue one job at a time; every `threadRelease` admits the next
queued job.  No submission happens after the terminal transitions, so the
retention sweep in `create_job` never runs on the 21 terminal records. -/
def trace_twentyone : List Act :=
  ((List.range 5).flatMap
    (fun i => [.submit req_plain, .startNext, .threadGet i, .threadMark i])) ++
  ((List.range 16).flatMap (fun _ => [Act.submit req_plain, .startNext])) ++
  ((List.range 5).flatMap (fun i =>
    [Act.threadFinish i (.ok "") (.ok "f"), .threadRelease i,
     .threadGet (5 + i), .threadMark (5 + i)])) ++
  ((List.range 16).flatMap (fun k =>
    [Act.threadFinish (5 + k) (.ok "") (.ok "f"), .threadRelease (5 + k),
     .threadGet (10 + k), .threadMark (10 + k)]))

/-- Interleaving with a double admission: request 1 submits job `0` and
`start_next_job` dispatches worker `0` for it; before worker `0` can mark
the record (it is still `'queued'`), request 2 submits job `1` and its
`start_next_job` scan finds job `0` still `'queued'` and dispatches worker
`1` for the same job.  Worker `0` then runs the job to completion. -/
def trace_double_admission : List Act :=
  [.submit req_plain, .startNext, .submit req_plain, .startNext,
   .threadGet 0, .threadGet 1, .threadMark 0,
   .threadFinish 0 (.ok "") (.ok "f.png")]

/-- Interleaving where a job bound to character `0` is admitted and fully
processed by a worker freed from an earlier job before the `/generate`
request thread reaches the section that attaches the character reference
to the record: the attach lands only after the image was generated. -/
def trace_attach_too_late : List Act :=
  [.submit req_plain, .startNext, .threadGet 0, .threadMark 0,
   .submit req_character,
   .threadFinish 0 (.ok "") (.ok "b.png"), .threadRelease 0,
   .threadGet 1, .threadMark 1, .threadFinish 1 (.ok "") (.ok "a.png"),
   .attach 1 { char_id := 0, name := "n", seed := 777 }]

/-- The inductive invariant of the system: job ids are below the id counter
and pairwise distinct; thread ids are below the thread counter and pairwise
distinct; the number of live worker threads never exceeds the admission
counter; the admission counter never exceeds `MAX_CONCURRENT_JOBS`; and
every `processing` record is owned by some live worker thread in its
pipeline phase. -/
def Inv (s : SysState) : Prop :=
  (∀ j ∈ s.jobs, j.id < s.next_job_id) ∧
  (s.jobs.map (fun j => j.id)).Nodup ∧
  (∀ t ∈ s.threads, t.tid < s.next_thread_id) ∧
  (s.threads.map (fun t => t.tid)).Nodup ∧
  ((s.threads.length : ℤ) ≤ s.active_jobs_count) ∧
  (s.active_jobs_count ≤ (MAX_CONCURRENT_JOBS : ℤ)) ∧
  (∀ j ∈ s.jobs, j.status = Status.processing →
    ∃ t ∈ s.threads, t.jid = j.id ∧ t.pc = PC.atWork)

/-- C4: for a job with no character binding and `consistency = false`, the
derived seed is a pure function of the job id alone: two job records
agreeing on the id (but possibly differing in any other field) receive the
same seed, namely `RANDOM_SEED + hash(id) % 10000`. -/
theorem c4_seed_deterministic (cfg : Config) (hashFn : ℕ → ℤ) (j₁ j₂ : JobInfo)
    (h₁c : j₁.character = none) (h₁f : j₁.character_consistency = false)
    (h₂c : j₂.character = none) (h₂f : j₂.character_consistency = false)
    (hid : j₁.id = j₂.id) :
    job_seed cfg hashFn j₁ = job_seed cfg hashFn j₂ ∧
    job_seed cfg hashFn j₁ = cfg.random_seed + hashFn j₁.id % 10000 := by
  unfold job_seed derive_seed
  rw [h₁c, h₁f, h₂c, h₂f, hid]
  exact ⟨rfl, rfl⟩

/-- Witness for C4 at two concrete jobs sharing an id but nothing else. -/
theorem c4_seed_deterministic_witness :
    job_seed defaultCfg (fun n => (n : ℤ) * 7)
      { id := 3, prompt := "a cat", optimize_prompt := true,
        character_consistency := false,
        settings := { guidance_scale := 6, inference_steps := 45 },
        status := .queued, step := 0, total := 45, stage := "Waiting in queue",
        queue_position := 0, filename := none, optimized_prompt := none,
        error := none, character := none, used_seed := none } =
    job_seed defaultCfg (fun n => (n : ℤ) * 7)
      { id := 3, prompt := "a dog", optimize_prompt := false,
        character_consistency := false,
        settings := { guidance_scale := 2, inference_steps := 30 },
        status := .processing, step := 5, total := 30, stage := "Generating",
        queue_position := 2, filename := none, optimized_prompt := none,
        error := none, character := none, used_seed := none } := by
  have h := c4_seed_deterministic defaultCfg (fun n => (n : ℤ) * 7)
    { id := 3, prompt := "a cat", optimize_prompt := true,
      character_consistency := false,
      settings := { guidance_scale := 6, inference_steps := 45 },
      status := .queued, step := 0, total := 45, stage := "Waiting in queue",
      queue_position := 0, filename := none, optimized_prompt := none,
      error := none, character := none, used_seed := none }
    { id := 3, prompt := "a dog", optimize_prompt := false,
      character_consistency := false,
      settings := { guidance_scale := 2, inference_steps := 30 },
      status := .processing, step := 5, total := 30, stage := "Generating",
      queue_position := 2, filename := none, optimized_prompt := none,
      error := none, character := none, used_seed := none }
    rfl rfl rfl rfl rfl
  exact h.1

/-- C8: job creation never rejects settings; a provided `guidance_scale` is
clamped into `[1, 20]`, a provided `inference_steps` into `[10, 150]`, and
an absent key falls back to the process-wide configuration default. -/
theorem c8_settings_clamped (cfg : Config) :
    (merge_settings cfg none =
      { guidance_scale := cfg.default_guidance, inference_steps := cfg.default_steps }) ∧
    (∀ (g : ℚ) (st : Option ℤ),
      1 ≤ (merge_settings cfg (some { guidance_scale := some g, inference_steps := st })).guidance_scale ∧
      (merge_settings cfg (some { guidance_scale := some g, inference_steps := st })).guidance_scale ≤ 20) ∧
    (∀ (go : Option ℚ) (n : ℤ),
      10 ≤ (merge_settings cfg (some { guidance_scale := go, inference_steps := some n })).inference_steps ∧
      (merge_settings cfg (some { guidance_scale := go, inference_steps := some n })).inference_steps ≤ 150) ∧
    (∀ (st : Option ℤ),
      (merge_settings cfg (some { guidance_scale := none, inference_steps := st })).guidance_scale =
        cfg.default_guidance) ∧
    (∀ (go : Option ℚ),
      (merge_settings cfg (some { guidance_scale := go, inference_steps := none })).inference_steps =
        cfg.default_steps) := by
  refine ⟨rfl, ?_, ?_, ?_, ?_⟩
  · intro g st
    constructor
    · exact le_max_left 1 (min 20 g)
    · simp only [merge_settings, clamp_guidance, max_le_iff]
      constructor
      · norm_num
      · exact min_le_left 20 g
  · intro go n
    constructor
    · exact le_max_left 10 (min 150 n)
    · simp only [merge_settings, clamp_steps, max_le_iff]
      constructor
      · norm_num
      · exact min_le_left 150 n
  · intro st; rfl
  · intro go; rfl

/-- C10: with no character binding and `consistency = false` the derived
seed lies in `[RANDOM_SEED, RANDOM_SEED + 9999]`: the per-job offset
`hash(job_id) % 10000` is non-negative because Python's (and Lean's `Int.emod`)
modulo by a positive modulus is non-negative, and it is below `10000`. -/
theorem c10_seed_range (cfg : Config) (hashFn : ℕ → ℤ) (job_id : ℕ) :
    cfg.random_seed ≤ derive_seed cfg hashFn none false job_id ∧
    derive_seed cfg hashFn none false job_id ≤ cfg.random_seed + 9999 := by
  unfold derive_seed
  simp only [Bool.false_eq_true, if_false]
  constructor
  · have h : 0 ≤ hashFn job_id % 10000 := Int.emod_nonneg _ (by norm_num)
    linarith
  · have h : hashFn job_id % 10000 < 10000 := Int.emod_lt_of_pos _ (by norm_num)
    linarith

/-- C1 counterexample: a job with enhancement enabled whose Ollama call
raises `"boom"` (while generation itself would succeed) ends in status
`error` with that message — the pipeline does not fall back and proceed,
contradicting the claim that an enhancement failure never surfaces as a
job error. -/
theorem c1_counterexample :
    (job_lookup (run defaultCfg emptyStore hash0 initState trace_enhance_exn).jobs 0).map
      (fun j => (j.status, j.error)) = some (.error, some "boom") := by
  decide

/-- C1 amended: a *returned but malformed* enhancement response (fewer than
two usable lines) is recovered via the deterministic fallback prompt and
the job proceeds to a successful completion, while an enhancement call
that *raises* is caught by the job-level handler and the run fails with
that exception message. -/
theorem c1_enhancement_failure (cfg : Config) (hashFn : ℕ → ℤ) (j : JobInfo)
    (resp msg fname : String)
    (hopt : j.optimize_prompt = true)
    (hshort : (extract_lines (py_strip resp)).length < 2) :
    (∃ data, process_job_run cfg hashFn j (.ok resp) (.ok fname) = .success data ∧
      data.optimized_prompt = fallback_prompt j.prompt) ∧
    (∀ prod, process_job_run cfg hashFn j (.exn msg) prod = .failure none msg) := by
  have hfall : optimize_result j.prompt resp = fallback_prompt j.prompt := by
    unfold optimize_result
    rcases hl : extract_lines (py_strip resp) with _ | ⟨a, _ | ⟨b, rest⟩⟩
    · rfl
    · rfl
    · rw [hl] at hshort
      simp only [List.length_cons] at hshort
      omega
  constructor
  · unfold process_job_run
    rw [hopt]
    simp only [if_true, hfall]
    exact ⟨_, rfl, rfl⟩
  · intro prod
    unfold process_job_run
    rw [hopt]
    simp only [if_true]

/-- Witness for C1 amended: a response consisting only of bullet lines has
zero valid lines, so the fallback prompt is used and the job completes;
the same job fails when the call raises. -/
theorem c1_enhancement_failure_witness :
    ((extract_lines (py_strip "- a\n- b")).length < 2) ∧
    (∃ data,
      process_job_run defaultCfg hash0
        { id := 0, prompt := "x", optimize_prompt := true,
          character_consistency := false,
          settings := { guidance_scale := 6, inference_steps := 45 },
          status := .processing, step := 0, total := 45, stage := "Generating",
          queue_position := 0, filename := none, optimized_prompt := none,
          error := none, character := none, used_seed := none }
        (.ok "- a\n- b") (.ok "f.png") = .success data ∧
      data.optimized_prompt = fallback_prompt "x") := by
  refine ⟨by decide, ?_⟩
  exact (c1_enhancement_failure defaultCfg hash0
    { id := 0, prompt := "x", optimize_prompt := true,
      character_consistency := false,
      settings := { guidance_scale := 6, inference_steps := 45 },
      status := .processing, step := 0, total := 45, stage := "Generating",
      queue_position := 0, filename := none, optimized_prompt := none,
      error := none, character := none, used_seed := none }
    "- a\n- b" "boom" "f.png" rfl (by decide)).1

/-- C2 counterexample: after `MAX_CONCURRENT + 1 = 6` submissions (each of
the first five marked `processing` before the next arrives), the single
`queued` record has `queue_position = 5`, not `0`: `create_job` seeds the
position with the count of all non-terminal records, and no recompute runs
while the job waits. -/
theorem c2_counterexample :
    processing_count (run defaultCfg emptyStore hash0 initState trace_six_submissions).jobs = 5 ∧
    queued_count (run defaultCfg emptyStore hash0 initState trace_six_submissions).jobs = 1 ∧
    (job_lookup (run defaultCfg emptyStore hash0 initState trace_six_submissions).jobs 5).map
      (fun j => (j.status, j.queue_position)) = some (.queued, 5) := by
  refine ⟨by decide, by decide, by decide⟩

set_option maxRecDepth 40000 in
/-- C3 counterexample: a reachable state holds 21 terminal records — more
than `RETENTION_LIMIT` — because the retention sweep only runs inside
`create_job` and no submission follows the terminal transitions. -/
theorem c3_counterexample :
    RETENTION_LIMIT < terminal_count (run defaultCfg emptyStore hash0 initState trace_twentyone).jobs := by
  decide

/-- C6: the double-admission interleaving dispatches two workers for the
same record; after the first completes it, the second marks the completed
record `processing` again — the `Completed` record's status is changed, so
the transition `Completed → Processing` is reachable in the code. -/
theorem c6_completed_record_reprocessed :
    (job_lookup (run defaultCfg emptyStore hash0 initState trace_double_admission).jobs 0).map
      (fun j => j.status) = some .completed ∧
    (job_lookup (run defaultCfg emptyStore hash0 initState
        (trace_double_admission ++ [.threadMark 1])).jobs 0).map
      (fun j => j.status) = some .processing := by
  refine ⟨by decide, by decide⟩

/-- C7: in the late-attach interleaving the job carries the character
binding (fixed seed `777`) in the final state, yet the seed recorded for
the produced artifact is the consistency seed `42`: the worker read
`job['character']` before `/generate` attached it. -/
theorem c7_binding_seed_not_used :
    (job_lookup (run defaultCfg oneCharStore hash0 initState trace_attach_too_late).jobs 1).map
      (fun j => (j.status, j.character.map (fun c => c.seed), j.used_seed)) =
      some (.completed, some 777, some 42) ∧
    (42 : ℤ) ≠ 777 := by
  refine ⟨by decide, by decide⟩

/-- C9 counterexample: a whitespace-only prompt submitted with a valid
character binding is *accepted* and creates a record: the emptiness check
runs on the combined prompt `description + ", " + scene`, which is
non-empty. -/
theorem c9_counterexample :
    py_strip req_blank_character.prompt = "" ∧
    (generate_submit defaultCfg oneCharStore initState req_blank_character).2 = .accepted 0 ∧
    (generate_submit defaultCfg oneCharStore initState req_blank_character).1.jobs.length = 1 := by
  refine ⟨by decide, by decide, by decide⟩

/-- C9 amended: a submission whose stripped prompt is empty and which has
no usable character binding (no id, or an id the profile store cannot
resolve) is rejected immediately and leaves the store untouched. -/
theorem c9_empty_rejected (cfg : Config) (store : ℕ → Option Character)
    (s : SysState) (d : RequestData)
    (hchar : d.character_id.bind store = none)
    (hblank : py_strip d.prompt = "") :
    generate_submit cfg store s d = (s, .rejected) := by
  unfold generate_submit
  rw [hchar, hblank]
  rfl

/-- Witness for C9 amended at a concrete whitespace-only request. -/
theorem c9_empty_rejected_witness :
    generate_submit defaultCfg emptyStore initState
      { prompt := " ", optimize_prompt := true, character_consistency := false,
        character_id := none, guidance_scale := none, inference_steps := none } =
      (initState, .rejected) := by
  exact c9_empty_rejected defaultCfg emptyStore initState
    { prompt := " ", optimize_prompt := true, character_consistency := false,
      character_id := none, guidance_scale := none, inference_steps := none }
    rfl (by decide)


theorem upd_positions_from_spec (pos : ℕ) (l : List JobInfo) :
    ((update_queue_positions_from pos l).filter (fun j => j.status == Status.queued)).map
      (fun j => j.queue_position) =
      List.range' pos (l.filter (fun j => j.status == Status.queued)).length := by
  induction l generalizing pos with
  | nil => rfl
  | cons j rest ih =>
    cases hst : j.status == Status.queued with
    | true =>
      simp only [update_queue_positions_from, hst, if_true, List.filter_cons, List.map_cons,
        List.length_cons, List.range'_succ]
      exact congrArg _ (ih (pos + 1))
    | false =>
      simp only [update_queue_positions_from, hst, Bool.false_eq_true, if_false, List.filter_cons]
      exact ih pos

theorem job_lookup_append_fresh (l : List JobInfo) (job : JobInfo) (i : ℕ)
    (hid : job.id = i) (h : ∀ j ∈ l, j.id ≠ i) :
    job_lookup (l ++ [job]) i = some job := by
  unfold job_lookup
  rw [List.find?_append]
  have h1 : l.find? (fun j => j.id == i) = none :=
    List.find?_eq_none.mpr (fun x hx => by simpa using h x hx)
  rw [h1]
  simp [List.find?, hid]

theorem job_lookup_sweep_fresh (l : List JobInfo) (job : JobInfo) (i : ℕ)
    (hid : job.id = i) (hterm : isTerminal job.status = false)
    (h : ∀ j ∈ l, j.id ≠ i) :
    job_lookup (retention_sweep (l ++ [job])) i = some job := by
  unfold retention_sweep
  have hfl : (l ++ [job]).filter (fun j => isTerminal j.status) =
      l.filter (fun j => isTerminal j.status) := by
    rw [List.filter_append]
    simp [List.filter, hterm]
  simp only [hfl]
  by_cases hgt :
      ((l.filter (fun j => isTerminal j.status)).map (fun j => j.id)).length > RETENTION_LIMIT
  · rw [if_pos hgt]
    have hpj : (!(List.contains
        (((l.filter (fun j => isTerminal j.status)).map (fun j => j.id)).take
          (((l.filter (fun j => isTerminal j.status)).map (fun j => j.id)).length - RETENTION_LIMIT))
        job.id)) = true := by
      rw [Bool.not_eq_true']
      by_contra hc
      rw [Bool.not_eq_false] at hc
      have hmem : job.id ∈ ((l.filter (fun j => isTerminal j.status)).map (fun j => j.id)) :=
        List.mem_of_mem_take (List.elem_iff.mp hc)
      rcases List.mem_map.mp hmem with ⟨x, hx, hxid⟩
      exact h x (List.mem_filter.mp hx).1 (hxid.trans hid)
    rw [List.filter_append]
    have hsing : List.filter (fun j => !(List.contains
        (((l.filter (fun j => isTerminal j.status)).map (fun j => j.id)).take
          (((l.filter (fun j => isTerminal j.status)).map (fun j => j.id)).length - RETENTION_LIMIT))
        j.id)) [job] = [job] := by
      simp only [List.filter_cons, hpj, if_true, List.filter_nil]
    rw [hsing]
    exact job_lookup_append_fresh _ job i hid (fun j hj => h j (List.mem_filter.mp hj).1)
  · rw [if_neg hgt]
    exact job_lookup_append_fresh l job i hid h


/-- C2 amended: whenever a job transitions to `Processing`, the recompute
loop assigns the `queued` records the contiguous ascending positions
`0, 1, 2, ...` in store (submission) order; but `create_job` seeds a new
record's position with the count of all non-terminal records (`queued`
plus `processing`), not with a rank among `queued` records. -/
theorem c2_queue_positions (l : List JobInfo) (cfg : Config) (s : SysState)
    (prompt : String) (opt cons : Bool) (settings : Option InputSettings)
    (hfresh : ∀ j ∈ s.jobs, j.id ≠ s.next_job_id) :
    ((update_queue_positions l).filter (fun j => j.status == Status.queued)).map
      (fun j => j.queue_position) = List.range (queued_count l) ∧
    (job_lookup (create_job cfg s prompt opt cons settings).1.jobs s.next_job_id).map
      (fun j => (j.status, j.queue_position)) =
      some (Status.queued, pending_count s.jobs) := by
  constructor
  · rw [List.range_eq_range']
    exact upd_positions_from_spec 0 l
  · have h2 := job_lookup_sweep_fresh s.jobs
      { id := s.next_job_id, prompt := prompt, optimize_prompt := opt,
        character_consistency := cons, settings := merge_settings cfg settings,
        status := .queued, step := 0,
        total := (merge_settings cfg settings).inference_steps,
        stage := "Waiting in queue", queue_position := pending_count s.jobs,
        filename := none, optimized_prompt := none, error := none,
        character := none, used_seed := none }
      s.next_job_id rfl rfl hfresh
    simp only [create_job]
    rw [h2]
    rfl

/-- Witness for C2 amended: in a store with two pending jobs the next
created record starts at queue position 2. -/
theorem c2_queue_positions_witness :
    (job_lookup (create_job defaultCfg
        (run defaultCfg emptyStore hash0 initState [Act.submit req_plain, Act.submit req_plain])
        "y" false false none).1.jobs
        (run defaultCfg emptyStore hash0 initState
          [Act.submit req_plain, Act.submit req_plain]).next_job_id).map
      (fun j => (j.status, j.queue_position)) = some (Status.queued, 2) :=
  (c2_queue_positions
    (run defaultCfg emptyStore hash0 initState [Act.submit req_plain, Act.submit req_plain]).jobs
    defaultCfg
    (run defaultCfg emptyStore hash0 initState [Act.submit req_plain, Act.submit req_plain])
    "y" false false none (by decide)).2

theorem filter_not_take_contains (ts : List JobInfo) (m : ℕ)
    (h : (ts.map (fun j => j.id)).Nodup) :
    ts.filter (fun j => !(((ts.map (fun j => j.id)).take m).contains j.id)) = ts.drop m := by
  induction ts generalizing m with
  | nil => simp
  | cons t rest ih =>
    rw [List.map_cons] at h
    rcases List.nodup_cons.mp h with ⟨hni, hnd⟩
    cases m with
    | zero => simp
    | succ m =>
      rw [List.map_cons, List.take_succ_cons, List.drop_succ_cons]
      have hhead : (!((t.id :: ((rest.map (fun j => j.id)).take m)).contains t.id)) = false := by
        simp [List.contains_cons]
      rw [List.filter_cons_of_neg (by simp [hhead])]
      have hcongr : ∀ j ∈ rest,
          (!((t.id :: ((rest.map (fun j => j.id)).take m)).contains j.id)) =
          (!(((rest.map (fun j => j.id)).take m).contains j.id)) := by
        intro j hj
        have hne : (j.id == t.id) = false := by
          simp only [beq_eq_false_iff_ne, ne_eq]
          intro he
          exact hni (he ▸ List.mem_map_of_mem (fun j => j.id) hj)
        rw [List.contains_cons, hne, Bool.false_or]
      rw [List.filter_congr hcongr]
      exact ih m hnd


theorem list_filter_swap {α : Type} (p q : α → Bool) (l : List α) :
    (l.filter q).filter p = (l.filter p).filter q := by
  rw [List.filter_filter, List.filter_filter]
  exact List.filter_congr (fun x _ => Bool.and_comm _ _)

/-- C3 amended: the retention sweep run inside `create_job` keeps exactly
the newest `RETENTION_LIMIT` terminal records (dropping the oldest
terminal records first), never removes a non-terminal (`Queued` or
`Processing`) record, and leaves at most `RETENTION_LIMIT` terminal
records; outside `create_job` no eviction happens, so between creations
the terminal count can exceed the limit (see the counterexample). -/
theorem c3_retention (l : List JobInfo) (h : (l.map (fun j => j.id)).Nodup) :
    (retention_sweep l).filter (fun j => isTerminal j.status) =
      (l.filter (fun j => isTerminal j.status)).drop (terminal_count l - RETENTION_LIMIT) ∧
    (retention_sweep l).filter (fun j => !(isTerminal j.status)) =
      l.filter (fun j => !(isTerminal j.status)) ∧
    terminal_count (retention_sweep l) ≤ RETENTION_LIMIT := by
  have hts : ((l.filter (fun j => isTerminal j.status)).map (fun j => j.id)).Nodup :=
    List.Nodup.sublist (List.Sublist.map _ (List.filter_sublist l)) h
  by_cases hgt :
      ((l.filter (fun j => isTerminal j.status)).map (fun j => j.id)).length > RETENTION_LIMIT
  · have hsw : retention_sweep l = l.filter (fun j =>
        !((((l.filter (fun j2 => isTerminal j2.status)).map (fun j2 => j2.id)).take
            (((l.filter (fun j2 => isTerminal j2.status)).map (fun j2 => j2.id)).length -
              RETENTION_LIMIT)).contains j.id)) := by
      simp only [retention_sweep]
      rw [if_pos hgt]
    have h1 : (retention_sweep l).filter (fun j => isTerminal j.status) =
        (l.filter (fun j => isTerminal j.status)).drop (terminal_count l - RETENTION_LIMIT) := by
      simp only [terminal_count]
      rw [hsw, list_filter_swap,
        filter_not_take_contains (l.filter (fun j => isTerminal j.status)) _ hts,
        List.length_map]
    have h2 : (retention_sweep l).filter (fun j => !(isTerminal j.status)) =
        l.filter (fun j => !(isTerminal j.status)) := by
      rw [hsw, list_filter_swap]
      apply List.filter_eq_self.mpr
      intro a ha
      rcases List.mem_filter.mp ha with ⟨hal, hant⟩
      rw [Bool.not_eq_true'] at hant
      rw [Bool.not_eq_true']
      by_contra hc
      rw [Bool.not_eq_false] at hc
      have hmem := List.mem_of_mem_take (List.elem_iff.mp hc)
      rcases List.mem_map.mp hmem with ⟨x, hxf, hxid⟩
      rcases List.mem_filter.mp hxf with ⟨hxl, hxt⟩
      have hxa : x = a := List.inj_on_of_nodup_map h hxl hal hxid
      rw [hxa, hant] at hxt
      cases hxt
    refine ⟨h1, h2, ?_⟩
    simp only [terminal_count] at h1 ⊢
    rw [h1, List.length_drop]
    omega
  · have hsw : retention_sweep l = l := by
      simp only [retention_sweep]
      rw [if_neg hgt]
    rw [List.length_map] at hgt
    have hm : terminal_count l - RETENTION_LIMIT = 0 := by
      simp only [terminal_count]
      omega
    rw [hsw, hm, List.drop_zero]
    refine ⟨rfl, rfl, ?_⟩
    simp only [terminal_count]
    omega


theorem mem_jobs_update {l : List JobInfo} {i : ℕ} {f : JobInfo → JobInfo} {x : JobInfo}
    (hm : x ∈ jobs_update l i f) :
    ∃ j ∈ l, x = if (j.id == i) = true then f j else j := by
  rcases List.mem_map.mp hm with ⟨j, hj, hx⟩
  exact ⟨j, hj, hx.symm⟩

theorem jobs_update_map_id (l : List JobInfo) (i : ℕ) (f : JobInfo → JobInfo)
    (hf : ∀ j, (f j).id = j.id) :
    (jobs_update l i f).map (fun j => j.id) = l.map (fun j => j.id) := by
  unfold jobs_update
  rw [List.map_map]
  apply List.map_congr_left
  intro a _
  simp only [Function.comp_apply]
  by_cases h : (a.id == i) = true
  · rw [if_pos h, hf]
  · rw [if_neg h]

theorem mem_upd_positions_from {pos : ℕ} {l : List JobInfo} {x : JobInfo}
    (hm : x ∈ update_queue_positions_from pos l) :
    ∃ j ∈ l, x.id = j.id ∧ x.status = j.status := by
  induction l generalizing pos with
  | nil => cases hm
  | cons j rest ih =>
    cases hst : j.status == Status.queued with
    | true =>
      rw [update_queue_positions_from, if_pos hst] at hm
      rcases List.mem_cons.mp hm with heq | hm
      · exact ⟨j, List.mem_cons_self j rest, by rw [heq], by rw [heq]⟩
      · rcases ih hm with ⟨j2, hj2, hid, hstx⟩
        exact ⟨j2, List.mem_cons_of_mem j hj2, hid, hstx⟩
    | false =>
      rw [update_queue_positions_from, if_neg (by simp [hst])] at hm
      rcases List.mem_cons.mp hm with heq | hm
      · exact ⟨j, List.mem_cons_self j rest, by rw [heq], by rw [heq]⟩
      · rcases ih hm with ⟨j2, hj2, hid, hstx⟩
        exact ⟨j2, List.mem_cons_of_mem j hj2, hid, hstx⟩

theorem upd_positions_from_map_id (pos : ℕ) (l : List JobInfo) :
    (update_queue_positions_from pos l).map (fun j => j.id) = l.map (fun j => j.id) := by
  induction l generalizing pos with
  | nil => rfl
  | cons j rest ih =>
    cases hst : j.status == Status.queued with
    | true =>
      rw [update_queue_positions_from, if_pos hst, List.map_cons, List.map_cons, ih]
    | false =>
      rw [update_queue_positions_from, if_neg (by simp [hst]), List.map_cons, List.map_cons, ih]

theorem set_thread_pc_map_tid (s : SysState) (tid : ℕ) (pc : PC) :
    (set_thread_pc s tid pc).map (fun t => t.tid) = s.threads.map (fun t => t.tid) := by
  unfold set_thread_pc
  rw [List.map_map]
  apply List.map_congr_left
  intro a _
  simp only [Function.comp_apply]
  by_cases h : (a.tid == tid) = true
  · rw [if_pos h]
  · rw [if_neg h]

theorem set_thread_pc_length (s : SysState) (tid : ℕ) (pc : PC) :
    (set_thread_pc s tid pc).length = s.threads.length := by
  unfold set_thread_pc
  exact List.length_map _ _

theorem mem_set_thread_pc_of_ne {s : SysState} {tid : ℕ} {pc : PC} {t0 : ThreadState}
    (h : t0 ∈ s.threads) (hne : t0.tid ≠ tid) :
    t0 ∈ set_thread_pc s tid pc := by
  unfold set_thread_pc
  have : (if (t0.tid == tid) = true then { t0 with pc := pc } else t0) = t0 := by
    rw [if_neg (by simp [hne])]
  exact this ▸ List.mem_map_of_mem _ h

theorem mem_set_thread_pc_self {s : SysState} {tid : ℕ} {pc : PC} {t : ThreadState}
    (h : t ∈ s.threads) (heq : (t.tid == tid) = true) :
    { t with pc := pc } ∈ set_thread_pc s tid pc := by
  unfold set_thread_pc
  have : (if (t.tid == tid) = true then { t with pc := pc } else t) = { t with pc := pc } := by
    rw [if_pos heq]
  exact this ▸ List.mem_map_of_mem _ h

theorem mem_set_thread_pc {s : SysState} {tid : ℕ} {pc : PC} {x : ThreadState}
    (hm : x ∈ set_thread_pc s tid pc) :
    ∃ t0 ∈ s.threads, x = if (t0.tid == tid) = true then { t0 with pc := pc } else t0 := by
  rcases List.mem_map.mp hm with ⟨t0, ht0, hx⟩
  exact ⟨t0, ht0, hx.symm⟩

theorem mem_remove_thread_of_ne {s : SysState} {tid : ℕ} {t0 : ThreadState}
    (h : t0 ∈ s.threads) (hne : t0.tid ≠ tid) :
    t0 ∈ remove_thread s tid := by
  unfold remove_thread
  exact List.mem_filter.mpr ⟨h, by simp [hne]⟩

theorem find_thread_spec {s : SysState} {tid : ℕ} {t : ThreadState}
    (h : find_thread s tid = some t) :
    t ∈ s.threads ∧ t.tid = tid := by
  unfold find_thread at h
  exact ⟨List.mem_of_find?_eq_some h, by simpa using List.find?_some h⟩

theorem start_next_job_inv {s : SysState} (h : Inv s) : Inv (start_next_job s) := by
  obtain ⟨h1, h2, h3, h4, h5, h6, h7⟩ := h
  unfold start_next_job
  by_cases hge : s.active_jobs_count ≥ (MAX_CONCURRENT_JOBS : ℤ)
  · rw [if_pos hge]
    exact ⟨h1, h2, h3, h4, h5, h6, h7⟩
  · rw [if_neg hge]
    cases hf : s.jobs.find? (fun j => j.status == Status.queued) with
    | none => exact ⟨h1, h2, h3, h4, h5, h6, h7⟩
    | some j =>
      refine ⟨h1, h2, ?_, ?_, ?_, ?_, ?_⟩
      · intro t ht
        rcases List.mem_append.mp ht with ht | ht
        · exact Nat.lt_succ_of_lt (h3 t ht)
        · rw [List.mem_singleton.mp ht]
          exact Nat.lt_succ_self _
      · rw [List.map_append]
        refine List.nodup_append.mpr ⟨h4, List.nodup_singleton _, ?_⟩
        intro a ha hb
        rcases List.mem_map.mp ha with ⟨t, ht, hta⟩
        have := h3 t ht
        simp only [List.map_cons, List.map_nil, List.mem_singleton] at hb
        omega
      · simp only [List.length_append, List.length_singleton]
        push_cast
        omega
      · simp only [MAX_CONCURRENT_JOBS] at hge ⊢
        omega
      · intro j2 hj2 hp2
        rcases h7 j2 hj2 hp2 with ⟨t, ht, hjid, hpc⟩
        exact ⟨t, List.mem_append.mpr (Or.inl ht), hjid, hpc⟩


theorem retention_sweep_sublist (l : List JobInfo) : (retention_sweep l).Sublist l := by
  simp only [retention_sweep]
  split
  · exact List.filter_sublist l
  · exact List.Sublist.refl l

theorem create_job_inv (cfg : Config) (s : SysState) (prompt : String)
    (opt cons : Bool) (settings : Option InputSettings)
    (h : Inv s) : Inv (create_job cfg s prompt opt cons settings).1 := by
  obtain ⟨h1, h2, h3, h4, h5, h6, h7⟩ := h
  simp only [create_job]
  refine ⟨?_, ?_, h3, h4, h5, h6, ?_⟩
  · intro j hj
    rcases List.mem_append.mp ((retention_sweep_sublist _).subset hj) with hj | hj
    · exact Nat.lt_succ_of_lt (h1 j hj)
    · rw [List.mem_singleton.mp hj]
      exact Nat.lt_succ_self _
  · refine List.Nodup.sublist (List.Sublist.map _ (retention_sweep_sublist _)) ?_
    rw [List.map_append]
    refine List.nodup_append.mpr ⟨h2, List.nodup_singleton _, ?_⟩
    intro a ha hb
    rcases List.mem_map.mp ha with ⟨j, hj, hja⟩
    have := h1 j hj
    simp only [List.map_cons, List.map_nil, List.mem_singleton] at hb
    omega
  · intro j hj hp
    rcases List.mem_append.mp ((retention_sweep_sublist _).subset hj) with hj | hj
    · rcases h7 j hj hp with ⟨t, ht, htj, htp⟩
      exact ⟨t, ht, htj, htp⟩
    · rw [List.mem_singleton.mp hj] at hp
      exact Status.noConfusion hp

theorem tid_of_mem_set_thread_pc {s : SysState} {tid : ℕ} {pc : PC} {x : ThreadState}
    (hm : x ∈ set_thread_pc s tid pc) :
    ∃ t0 ∈ s.threads, x.tid = t0.tid := by
  rcases mem_set_thread_pc hm with ⟨t0, ht0, hx⟩
  refine ⟨t0, ht0, ?_⟩
  rw [hx]
  split
  · rfl
  · rfl

theorem witness_in_set_pc {s : SysState} {tid : ℕ} {pc : PC} {t : ThreadState}
    (hnd : (s.threads.map (fun t => t.tid)).Nodup)
    (hft : find_thread s tid = some t) (hpcne : t.pc ≠ PC.atWork)
    {jid : ℕ} (hw : ∃ t0 ∈ s.threads, t0.jid = jid ∧ t0.pc = PC.atWork) :
    ∃ t0 ∈ set_thread_pc s tid pc, t0.jid = jid ∧ t0.pc = PC.atWork := by
  rcases hw with ⟨t0, ht0, hj, hp⟩
  rcases find_thread_spec hft with ⟨htmem, htid⟩
  have hne : t0.tid ≠ tid := by
    intro he
    have h0 : t0 = t := List.inj_on_of_nodup_map hnd ht0 htmem (he.trans htid.symm)
    rw [h0] at hp
    exact hpcne hp
  exact ⟨t0, mem_set_thread_pc_of_ne ht0 hne, hj, hp⟩

theorem witness_in_set_pc_jid {s : SysState} {tid : ℕ} {pc : PC} {t : ThreadState}
    (hnd : (s.threads.map (fun t => t.tid)).Nodup)
    (hft : find_thread s tid = some t)
    {jid : ℕ} (hjne : jid ≠ t.jid)
    (hw : ∃ t0 ∈ s.threads, t0.jid = jid ∧ t0.pc = PC.atWork) :
    ∃ t0 ∈ set_thread_pc s tid pc, t0.jid = jid ∧ t0.pc = PC.atWork := by
  rcases hw with ⟨t0, ht0, hj, hp⟩
  rcases find_thread_spec hft with ⟨htmem, htid⟩
  have hne : t0.tid ≠ tid := by
    intro he
    have h0 : t0 = t := List.inj_on_of_nodup_map hnd ht0 htmem (he.trans htid.symm)
    rw [h0] at hj
    exact hjne hj.symm
  exact ⟨t0, mem_set_thread_pc_of_ne ht0 hne, hj, hp⟩

theorem witness_in_remove {s : SysState} {tid : ℕ} {t : ThreadState}
    (hnd : (s.threads.map (fun t => t.tid)).Nodup)
    (hft : find_thread s tid = some t) (hpcne : t.pc ≠ PC.atWork)
    {jid : ℕ} (hw : ∃ t0 ∈ s.threads, t0.jid = jid ∧ t0.pc = PC.atWork) :
    ∃ t0 ∈ remove_thread s tid, t0.jid = jid ∧ t0.pc = PC.atWork := by
  rcases hw with ⟨t0, ht0, hj, hp⟩
  rcases find_thread_spec hft with ⟨htmem, htid⟩
  have hne : t0.tid ≠ tid := by
    intro he
    have h0 : t0 = t := List.inj_on_of_nodup_map hnd ht0 htmem (he.trans htid.symm)
    rw [h0] at hp
    exact hpcne hp
  exact ⟨t0, mem_remove_thread_of_ne ht0 hne, hj, hp⟩

theorem apply_outcome_status (o : Outcome) (j : JobInfo) :
    (apply_outcome o j).status = Status.completed ∨ (apply_outcome o j).status = Status.error := by
  cases o with
  | success data => exact Or.inl rfl
  | failure optw m => exact Or.inr rfl


theorem apply_outcome_id (o : Outcome) (j : JobInfo) :
    (apply_outcome o j).id = j.id := by
  cases o with
  | success data => rfl
  | failure optw m => rfl

theorem step_inv (cfg : Config) (store : ℕ → Option Character) (hashFn : ℕ → ℤ)
    {s : SysState} (a : Act) (h : Inv s) : Inv (step cfg store hashFn s a) := by
  obtain ⟨h1, h2, h3, h4, h5, h6, h7⟩ := h
  cases a with
  | submit d =>
    simp only [step, generate_submit]
    split
    · exact ⟨h1, h2, h3, h4, h5, h6, h7⟩
    · exact create_job_inv cfg s _ _ _ _ ⟨h1, h2, h3, h4, h5, h6, h7⟩
  | attach jid c =>
    simp only [step]
    refine ⟨?_, ?_, h3, h4, h5, h6, ?_⟩
    · intro j hj
      rcases mem_jobs_update hj with ⟨j0, hj0, heq⟩
      have hid : j.id = j0.id := by
        rw [heq]
        split
        · rfl
        · rfl
      rw [hid]
      exact h1 j0 hj0
    · rw [jobs_update_map_id _ _ _ (by intro j; rfl)]
      exact h2
    · intro j hj hp
      rcases mem_jobs_update hj with ⟨j0, hj0, heq⟩
      have hid : j.id = j0.id := by
        rw [heq]
        split
        · rfl
        · rfl
      have hst : j.status = j0.status := by
        rw [heq]
        split
        · rfl
        · rfl
      rcases h7 j0 hj0 (hst.symm.trans hp) with ⟨t, ht, htj, htp⟩
      exact ⟨t, ht, htj.trans hid.symm, htp⟩
  | startNext =>
    simp only [step]
    exact start_next_job_inv ⟨h1, h2, h3, h4, h5, h6, h7⟩
  | threadGet tid =>
    cases hf : find_thread s tid with
    | none =>
      simp only [step, hf]
      exact ⟨h1, h2, h3, h4, h5, h6, h7⟩
    | some t =>
      by_cases hpc : (t.pc == PC.atStart) = true
      · have hpceq : t.pc = PC.atStart := by simpa using hpc
        cases hjl : job_lookup s.jobs t.jid with
        | some j0 =>
          simp only [step, hf, if_pos hpc, hjl]
          refine ⟨h1, h2, ?_, ?_, ?_, h6, ?_⟩
          · intro t2 ht2
            rcases tid_of_mem_set_thread_pc ht2 with ⟨t0, ht0, heq⟩
            rw [heq]
            exact h3 t0 ht0
          · rw [set_thread_pc_map_tid]
            exact h4
          · rw [set_thread_pc_length]
            exact h5
          · intro j hj hp
            exact witness_in_set_pc h4 hf (by rw [hpceq]; decide) (h7 j hj hp)
        | none =>
          simp only [step, hf, if_pos hpc, hjl]
          refine ⟨h1, h2, ?_, ?_, ?_, h6, ?_⟩
          · intro t2 ht2
            exact h3 t2 (List.mem_filter.mp ht2).1
          · exact List.Nodup.sublist (List.Sublist.map _ (List.filter_sublist _)) h4
          · calc ((remove_thread s tid).length : ℤ)
                ≤ (s.threads.length : ℤ) := by
                  exact_mod_cast List.length_filter_le _ _
              _ ≤ s.active_jobs_count := h5
          · intro j hj hp
            exact witness_in_remove h4 hf (by rw [hpceq]; decide) (h7 j hj hp)
      · simp only [step, hf, if_neg hpc]
        exact ⟨h1, h2, h3, h4, h5, h6, h7⟩
  | threadMark tid =>
    cases hf : find_thread s tid with
    | none =>
      simp only [step, hf]
      exact ⟨h1, h2, h3, h4, h5, h6, h7⟩
    | some t =>
      by_cases hpc : (t.pc == PC.atMark) = true
      · have hpceq : t.pc = PC.atMark := by simpa using hpc
        cases hjl : job_lookup s.jobs t.jid with
        | some j0 =>
          simp only [step, hf, if_pos hpc, hjl]
          refine ⟨?_, ?_, ?_, ?_, ?_, h6, ?_⟩
          · intro j hj
            rcases mem_upd_positions_from hj with ⟨j2, hj2, hid2, _⟩
            rcases mem_jobs_update hj2 with ⟨j3, hj3, heq3⟩
            have hid3 : j2.id = j3.id := by
              rw [heq3]
              split
              · rfl
              · rfl
            rw [hid2, hid3]
            exact h1 j3 hj3
          · rw [update_queue_positions, upd_positions_from_map_id,
              jobs_update_map_id _ _ _ (by intro j; rfl)]
            exact h2
          · intro t2 ht2
            rcases tid_of_mem_set_thread_pc ht2 with ⟨t0, ht0, heq⟩
            rw [heq]
            exact h3 t0 ht0
          · rw [set_thread_pc_map_tid]
            exact h4
          · rw [set_thread_pc_length]
            exact h5
          · intro j hj hp
            rcases mem_upd_positions_from hj with ⟨j2, hj2, hid2, hst2⟩
            rcases mem_jobs_update hj2 with ⟨j3, hj3, heq3⟩
            by_cases hjid : (j3.id == t.jid) = true
            · rcases find_thread_spec hf with ⟨htmem, htid⟩
              refine ⟨{ t with pc := PC.atWork }, mem_set_thread_pc_self htmem (by simp [htid]), ?_, rfl⟩
              have hj3t : j3.id = t.jid := by simpa using hjid
              have hid3 : j2.id = j3.id := by
                rw [heq3]
                split
                · rfl
                · rfl
              show t.jid = j.id
              rw [hid2, hid3, hj3t]
            · have hjeq : j2 = j3 := by rw [heq3, if_neg hjid]
              have hp3 : j3.status = Status.processing := by
                rw [← hjeq, ← hst2]
                exact hp
              rcases h7 j3 hj3 hp3 with ⟨t0, ht0, htj, htp⟩
              have hjidne : j.id ≠ t.jid := by
                rw [hid2, hjeq]
                intro he
                exact hjid (by simp [he])
              exact witness_in_set_pc_jid h4 hf hjidne
                ⟨t0, ht0, htj.trans (by rw [hid2, hjeq]), htp⟩
        | none =>
          simp only [step, hf, if_pos hpc, hjl]
          refine ⟨h1, h2, ?_, ?_, ?_, h6, ?_⟩
          · intro t2 ht2
            rcases tid_of_mem_set_thread_pc ht2 with ⟨t0, ht0, heq⟩
            rw [heq]
            exact h3 t0 ht0
          · rw [set_thread_pc_map_tid]
            exact h4
          · rw [set_thread_pc_length]
            exact h5
          · intro j hj hp
            exact witness_in_set_pc h4 hf (by rw [hpceq]; decide) (h7 j hj hp)
      · simp only [step, hf, if_neg hpc]
        exact ⟨h1, h2, h3, h4, h5, h6, h7⟩
  | threadFinish tid enh prod =>
    cases hf : find_thread s tid with
    | none =>
      simp only [step, hf]
      exact ⟨h1, h2, h3, h4, h5, h6, h7⟩
    | some t =>
      by_cases hpc : (t.pc == PC.atWork) = true
      · cases hjl : job_lookup s.jobs t.jid with
        | some j0 =>
          simp only [step, hf, if_pos hpc, hjl]
          refine ⟨?_, ?_, ?_, ?_, ?_, h6, ?_⟩
          · intro j hj
            rcases mem_jobs_update hj with ⟨j3, hj3, heq3⟩
            have hid : j.id = j3.id := by
              rw [heq3]
              split
              · exact apply_outcome_id _ _
              · rfl
            rw [hid]
            exact h1 j3 hj3
          · rw [jobs_update_map_id _ _ _ (by intro j; exact apply_outcome_id _ _)]
            exact h2
          · intro t2 ht2
            rcases tid_of_mem_set_thread_pc ht2 with ⟨t0, ht0, heq⟩
            rw [heq]
            exact h3 t0 ht0
          · rw [set_thread_pc_map_tid]
            exact h4
          · rw [set_thread_pc_length]
            exact h5
          · intro j hj hp
            rcases mem_jobs_update hj with ⟨j3, hj3, heq3⟩
            by_cases hjid : (j3.id == t.jid) = true
            · rw [heq3, if_pos hjid] at hp
              rcases apply_outcome_status (process_job_run cfg hashFn j0 enh prod) j3 with ht | ht
              · exact Status.noConfusion (ht.symm.trans hp)
              · exact Status.noConfusion (ht.symm.trans hp)
            · have hjeq : j = j3 := by rw [heq3, if_neg hjid]
              have hp3 : j3.status = Status.processing := by
                rw [← hjeq]
                exact hp
              have hjidne : j.id ≠ t.jid := by
                rw [hjeq]
                intro he
                exact hjid (by simp [he])
              rcases h7 j3 hj3 hp3 with ⟨t0, ht0, htj, htp⟩
              exact witness_in_set_pc_jid h4 hf hjidne
                ⟨t0, ht0, htj.trans (by rw [hjeq]), htp⟩
        | none =>
          simp only [step, hf, if_pos hpc, hjl]
          refine ⟨h1, h2, ?_, ?_, ?_, h6, ?_⟩
          · intro t2 ht2
            rcases tid_of_mem_set_thread_pc ht2 with ⟨t0, ht0, heq⟩
            rw [heq]
            exact h3 t0 ht0
          · rw [set_thread_pc_map_tid]
            exact h4
          · rw [set_thread_pc_length]
            exact h5
          · intro j hj hp
            have hnone := List.find?_eq_none.mp hjl j hj
            have hjidne : j.id ≠ t.jid := by
              intro he
              exact hnone (by simp [he])
            exact witness_in_set_pc_jid h4 hf hjidne (h7 j hj hp)
      · simp only [step, hf, if_neg hpc]
        exact ⟨h1, h2, h3, h4, h5, h6, h7⟩
  | threadRelease tid =>
    cases hf : find_thread s tid with
    | none =>
      simp only [step, hf]
      exact ⟨h1, h2, h3, h4, h5, h6, h7⟩
    | some t =>
      by_cases hpc : (t.pc == PC.atCleanup) = true
      · have hpceq : t.pc = PC.atCleanup := by simpa using hpc
        simp only [step, hf, if_pos hpc]
        apply start_next_job_inv
        rcases find_thread_spec hf with ⟨htmem, htid⟩
        refine ⟨h1, h2, ?_, ?_, ?_, ?_, ?_⟩
        · intro t2 ht2
          exact h3 t2 (List.mem_filter.mp ht2).1
        · exact List.Nodup.sublist (List.Sublist.map _ (List.filter_sublist _)) h4
        · have hlt : (remove_thread s tid).length < s.threads.length := by
            apply List.length_filter_lt_length_iff_exists.mpr
            exact ⟨t, htmem, by simp [htid]⟩
          dsimp only
          omega
        · dsimp only
          omega
        · intro j hj hp
          exact witness_in_remove h4 hf (by rw [hpceq]; decide) (h7 j hj hp)
      · simp only [step, hf, if_neg hpc]
        exact ⟨h1, h2, h3, h4, h5, h6, h7⟩


theorem init_inv : Inv initState := by
  refine ⟨?_, ?_, ?_, ?_, ?_, ?_, ?_⟩
  · intro j hj
    cases hj
  · exact List.nodup_nil
  · intro t ht
    cases ht
  · exact List.nodup_nil
  · norm_num [initState]
  · norm_num [initState, MAX_CONCURRENT_JOBS]
  · intro j hj
    cases hj

theorem inv_processing_bound {s : SysState} (h : Inv s) :
    processing_count s.jobs ≤ MAX_CONCURRENT_JOBS := by
  obtain ⟨h1, h2, h3, h4, h5, h6, h7⟩ := h
  have hP : ((s.jobs.filter (fun j => j.status == Status.processing)).map (fun j => j.id)).Nodup :=
    List.Nodup.sublist (List.Sublist.map _ (List.filter_sublist _)) h2
  have hsub : ((s.jobs.filter (fun j => j.status == Status.processing)).map (fun j => j.id)) ⊆
      ((s.threads.filter (fun t => t.pc == PC.atWork)).map (fun t => t.jid)) := by
    intro x hx
    rcases List.mem_map.mp hx with ⟨j, hjf, hjid⟩
    rcases List.mem_filter.mp hjf with ⟨hjl, hjp⟩
    rcases h7 j hjl (by simpa using hjp) with ⟨t, htl, htjid, htpc⟩
    exact List.mem_map.mpr ⟨t, List.mem_filter.mpr ⟨htl, by simp [htpc]⟩, htjid.trans hjid⟩
  have hlen := (List.Nodup.subperm hP hsub).length_le
  have hw : ((s.threads.filter (fun t => t.pc == PC.atWork)).map (fun t => t.jid)).length ≤
      s.threads.length := by
    rw [List.length_map]
    exact List.length_filter_le _ _
  have hpc2 : processing_count s.jobs ≤ s.threads.length := by
    unfold processing_count
    calc (s.jobs.filter (fun j => j.status == Status.processing)).length
        = ((s.jobs.filter (fun j => j.status == Status.processing)).map
            (fun j => j.id)).length := (List.length_map _ _).symm
      _ ≤ ((s.threads.filter (fun t => t.pc == PC.atWork)).map (fun t => t.jid)).length := hlen
      _ ≤ s.threads.length := hw
  have hz : (processing_count s.jobs : ℤ) ≤ (MAX_CONCURRENT_JOBS : ℤ) := by
    calc (processing_count s.jobs : ℤ) ≤ (s.threads.length : ℤ) := by exact_mod_cast hpc2
      _ ≤ s.active_jobs_count := h5
      _ ≤ (MAX_CONCURRENT_JOBS : ℤ) := h6
  exact_mod_cast hz

theorem run_inv (cfg : Config) (store : ℕ → Option Character) (hashFn : ℕ → ℤ)
    (acts : List Act) {s : SysState} (h : Inv s) :
    Inv (run cfg store hashFn s acts) := by
  induction acts generalizing s with
  | nil => exact h
  | cons a rest ih =>
    rw [run, List.foldl_cons]
    exact ih (step_inv cfg store hashFn a h)

/-- C5: over every reachable interleaving of the system, the number of
records with status `Processing` never exceeds `MAX_CONCURRENT_JOBS = 5`:
each processing record is owned by a live worker, the workers are bounded
by the admission counter, and the counter is bounded by the ceiling. -/
theorem c5_processing_bound (cfg : Config) (store : ℕ → Option Character)
    (hashFn : ℕ → ℤ) (acts : List Act) :
    processing_count (run cfg store hashFn initState acts).jobs ≤ MAX_CONCURRENT_JOBS :=
  inv_processing_bound (run_inv cfg store hashFn acts init_inv)


/-- Witness for C3 amended at the concrete double-admission run's store. -/
theorem c3_retention_witness :
    terminal_count (retention_sweep
      (run defaultCfg emptyStore hash0 initState trace_double_admission).jobs) ≤
      RETENTION_LIMIT :=
  (c3_retention _ (by decide)).2.2

end OllamaVision
